import Mathlib

/-!
# Shallow embedding of `cmd/sqsattr/sqsattr.go` (the `sqsfill` program)

The program sends `count` messages to an SQS queue, either serially
(`fillSerially`) or concurrently (`fillConcurrent` spawning one
`fillSection` goroutine per `interval`-sized slice of the count).

Modelling decisions:
* Machine integers become `Nat`; every count in the program is non-negative
  on all executed paths.
* `time.Now().UnixNano()` and `rand.Intn(1000)` are modelled by an entropy
  stream `env : Nat → Nat × Nat` giving the (nanosecond, random draw) pair
  consumed by the i-th generated message; `rand.Intn(1000)` always lies in
  `[0, 1000)`, modelled by reducing the supplied draw `% 1000`.
* `queue.SendMessageBatch` is modelled by an oracle `sendOk : Nat → Bool`
  telling whether the i-th send call of the loop succeeds.  The program
  only inspects the error for logging, so the loops record the flag in
  their trace and nothing else.
* Each loop is embedded as a function returning its trace: the list of
  (batch, send-succeeded) pairs, in issue order.  Counters (`sent`,
  `count -= len(batch)`) are recovered from the trace since the program
  updates them by exactly the length of each issued batch.
* Goroutine interleaving does not affect any worker's state
  (`fillSection` shares nothing mutable); `fillConcurrent`'s final total
  is order-independent, so workers are modelled in index order, each with
  its own entropy stream and send oracle.
-/

namespace Sqsfill

/-- `sqsBatchSize = 10` from the `const` block. -/
def sqsBatchSize : Nat := 10

/-- `interval = 1000` from the `const` block: messages per worker. -/
def interval : Nat := 1000

/-- `defaultCount = 1000` from the `const` block. -/
def defaultCount : Nat := 1000

/-- `sqs.Message`: the fields `sqsfill` sets (`MessageId`, `Body`). -/
structure Message where
  messageId : String
  body : String
deriving DecidableEq

/-- `genMessage`: builds `ID_<nano>_<rand>` in a buffer, takes that as the
message id, then appends a space and the body template for the body. -/
def genMessage (tmpl : String) (nano rnd : Nat) : Message :=
  let mID := "ID_" ++ toString nano ++ "_" ++ toString (rnd % 1000)
  { messageId := mID, body := mID ++ " " ++ tmpl }

/-- `genMessageBatch`: `make([]sqs.Message, batchSize)` filled by
`genMessage`, one entropy pair per slot.  No clamping of `batchSize`. -/
def genMessageBatch (batchSize : Nat) (tmpl : String)
    (env : Nat → Nat × Nat) : List Message :=
  (List.range batchSize).map fun i => genMessage tmpl (env i).1 (env i).2

/-- The `partial` struct: a worker's completion report (`id`, `count`). -/
structure Chunk where
  id : Nat
  count : Nat
deriving DecidableEq

/-- The loop of `fillSection`: `for sent < msgCount` issue a batch of size
`min(sqsBatchSize, msgCount - sent)`, send it (recording success), and do
`sent += len(batch)` — unconditionally, error or not.  Arguments `sent`,
`genIdx`, `call` thread the sent counter, the entropy-stream position and
the send-call index; the result is the trace of (batch, send-ok) pairs. -/
def fillSectionGo (tmpl : String) (env : Nat → Nat × Nat)
    (sendOk : Nat → Bool) (msgCount sent genIdx call : Nat) :
    List (List Message × Bool) :=
  if h : sent < msgCount then
    let batchSize :=
      if msgCount - sent < sqsBatchSize then msgCount - sent else sqsBatchSize
    let batch := genMessageBatch batchSize tmpl fun i => env (genIdx + i)
    (batch, sendOk call) ::
      fillSectionGo tmpl env sendOk msgCount (sent + batch.length)
        (genIdx + batch.length) (call + 1)
  else []
termination_by msgCount - sent
decreasing_by
  simp only [genMessageBatch, List.length_map, List.length_range, sqsBatchSize]
  split <;> omega

/-- `fillSection`: run the worker loop on quota `msgCount` and emit the
completion report `partial{id, sent}`; the final `sent` is the sum of the
issued batch lengths (the loop starts at `sent = 0` and adds `len(batch)`
each iteration). -/
def fillSection (tmpl : String) (env : Nat → Nat × Nat)
    (sendOk : Nat → Bool) (id msgCount : Nat) : Chunk :=
  let trace := fillSectionGo tmpl env sendOk msgCount 0 0 0
  { id := id, count := (trace.map fun b => b.1.length).sum }

/-- The loop of `fillSerially`: `for count > 0` issue a batch of size
`count % sqsBatchSize` when that is non-zero and `sqsBatchSize` otherwise
(so the remainder batch goes first), send it, and do
`count -= len(batch)` — unconditionally, error or not. -/
def fillSeriallyGo (tmpl : String) (env : Nat → Nat × Nat)
    (sendOk : Nat → Bool) (count genIdx call : Nat) :
    List (List Message × Bool) :=
  if h : 0 < count then
    let batchSize :=
      if count % sqsBatchSize ≠ 0 then count % sqsBatchSize else sqsBatchSize
    let batch := genMessageBatch batchSize tmpl fun i => env (genIdx + i)
    (batch, sendOk call) ::
      fillSeriallyGo tmpl env sendOk (count - batch.length)
        (genIdx + batch.length) (call + 1)
  else []
termination_by count
decreasing_by
  simp only [genMessageBatch, List.length_map, List.length_range, sqsBatchSize]
  split <;> omega

/-- `fillSerially`: number of messages sent by the serial loop, i.e. the
final value of `total - count` (`total` is the initial count and the loop
subtracts each batch's length from `count` until it reaches zero). -/
def fillSerially (tmpl : String) (env : Nat → Nat × Nat)
    (sendOk : Nat → Bool) (count : Nat) : Nat :=
  ((fillSeriallyGo tmpl env sendOk count 0 0).map fun b => b.1.length).sum

/-- `workers := int(math.Ceil(float64(count) / float64(interval)))` in
`fillConcurrent`, the ceiling modelled exactly over `Nat` (the `intv`
argument generalises the constant `interval` the source divides by). -/
def numWorkers (count intv : Nat) : Nat := (count + intv - 1) / intv

/-- Worker `i`'s quota in `fillConcurrent`: `numMsgs := interval` overridden
with `count - i*interval` when that is smaller (truncated subtraction agrees
with the Go `int` arithmetic for every index the loop actually runs). -/
def workerQuota (count intv i : Nat) : Nat :=
  if count - i * intv < intv then count - i * intv else intv

/-- The partition plan of `fillConcurrent`: the quotas handed to workers
`i = 0 .. workers-1` (the source numbers the goroutines `i+1`). -/
def workerQuotas (count intv : Nat) : List Nat :=
  (List.range (numWorkers count intv)).map (workerQuota count intv)

/-- The batch sizes of a trace: `len(batch)` for each issued batch. -/
def batchSizes (trace : List (List Message × Bool)) : List Nat :=
  trace.map fun b => b.1.length

/-- Messages actually delivered in a trace: lengths of the batches whose
send call succeeded. -/
def deliveredCount (trace : List (List Message × Bool)) : Nat :=
  ((trace.filter fun b => b.2).map fun b => b.1.length).sum

/-- The aggregation loop of `fillConcurrent`: `total += chunk.count` over
the received completion reports. -/
def aggregate (reports : List Chunk) : Nat :=
  reports.foldl (fun total chunk => total + chunk.count) 0

/-- The running totals the aggregation loop prints: the value of `total`
before any report and after each received report. -/
def runningTotals (reports : List Chunk) : List Nat :=
  List.scanl (fun total chunk => total + chunk.count) 0 reports

/-- `fillConcurrent`: one `fillSection` worker per quota of the partition
plan (worker `i` gets id `i+1`, its own entropy stream `envs i` and send
oracle `sendOks i`), and the aggregated total of their reports. -/
def fillConcurrent (tmpl : String) (envs : Nat → Nat → Nat × Nat)
    (sendOks : Nat → Nat → Bool) (count : Nat) : Nat :=
  let reports := (List.range (numWorkers count interval)).map fun i =>
    fillSection tmpl (envs i) (sendOks i) (i + 1)
      (workerQuota count interval i)
  aggregate reports

/-- Messages actually delivered across a whole concurrent run: the sum of
each worker's delivered count. -/
def fillConcurrentDelivered (tmpl : String) (envs : Nat → Nat → Nat × Nat)
    (sendOks : Nat → Nat → Bool) (count : Nat) : Nat :=
  ((List.range (numWorkers count interval)).map fun i =>
    deliveredCount (fillSectionGo tmpl (envs i) (sendOks i)
      (workerQuota count interval i) 0 0 0)).sum

/-- Reference form of `fillSection`'s batch sizes, as a function of the
remaining count only. -/
def sectionSizes (remaining : Nat) : List Nat :=
  if _h : 0 < remaining then
    let batchSize :=
      if remaining < sqsBatchSize then remaining else sqsBatchSize
    batchSize :: sectionSizes (remaining - batchSize)
  else []
termination_by remaining
decreasing_by
  simp only [sqsBatchSize]
  split <;> omega

/-- Reference form of `fillSerially`'s batch sizes, as a function of the
remaining count only. -/
def serialSizes (count : Nat) : List Nat :=
  if _h : 0 < count then
    let batchSize :=
      if count % sqsBatchSize ≠ 0 then count % sqsBatchSize else sqsBatchSize
    batchSize :: serialSizes (count - batchSize)
  else []
termination_by count
decreasing_by
  simp only [sqsBatchSize]
  split <;> omega

end Sqsfill

namespace Sqsfill

/-! ## Basic lemmas about batches and the two loops -/

theorem genMessageBatch_length (n : Nat) (tmpl : String)
    (env : Nat → Nat × Nat) : (genMessageBatch n tmpl env).length = n := by
  simp [genMessageBatch]

/-- The batch sizes the `fillSection` loop issues depend only on the
remaining count `msgCount - sent`: `sent` is advanced by `len(batch)` on
every iteration, send errors notwithstanding. -/
theorem fillSectionGo_batchSizes (tmpl : String) (env : Nat → Nat × Nat)
    (sendOk : Nat → Bool) (msgCount sent genIdx call : Nat) :
    batchSizes (fillSectionGo tmpl env sendOk msgCount sent genIdx call)
      = sectionSizes (msgCount - sent) := by
  suffices h : ∀ rem sent genIdx call, msgCount - sent = rem →
      List.map (fun b => b.1.length)
          (fillSectionGo tmpl env sendOk msgCount sent genIdx call)
        = sectionSizes rem by
    simpa [batchSizes] using h (msgCount - sent) sent genIdx call rfl
  intro rem
  induction rem using Nat.strong_induction_on with
  | _ rem ih =>
    intro sent genIdx call hrem
    rw [fillSectionGo.eq_def, sectionSizes.eq_def]
    by_cases hs : sent < msgCount
    · rw [dif_pos hs, dif_pos (by omega)]
      simp only [sqsBatchSize, List.map_cons, genMessageBatch_length]
      rw [hrem]
      by_cases hb : rem < 10
      · rw [if_pos hb]
        exact congrArg _ (ih (rem - rem) (by omega) (sent + rem) _ _ (by omega))
      · rw [if_neg hb]
        exact congrArg _ (ih (rem - 10) (by omega) (sent + 10) _ _ (by omega))
    · rw [dif_neg hs, dif_neg (by omega)]
      simp

/-- The batch sizes the `fillSerially` loop issues depend only on the
remaining `count`: `count` is decreased by `len(batch)` on every
iteration, send errors notwithstanding. -/
theorem fillSeriallyGo_batchSizes (tmpl : String) (env : Nat → Nat × Nat)
    (sendOk : Nat → Bool) (count genIdx call : Nat) :
    batchSizes (fillSeriallyGo tmpl env sendOk count genIdx call)
      = serialSizes count := by
  suffices h : ∀ count genIdx call,
      List.map (fun b => b.1.length)
          (fillSeriallyGo tmpl env sendOk count genIdx call)
        = serialSizes count by
    simpa [batchSizes] using h count genIdx call
  intro count
  induction count using Nat.strong_induction_on with
  | _ count ih =>
    intro genIdx call
    rw [fillSeriallyGo.eq_def, serialSizes.eq_def]
    by_cases hc : 0 < count
    · rw [dif_pos hc, dif_pos hc]
      simp only [sqsBatchSize, List.map_cons, genMessageBatch_length]
      by_cases hm : count % 10 ≠ 0
      · rw [if_pos hm]
        exact congrArg _ (ih (count - count % 10) (by omega) _ _)
      · rw [if_neg hm]
        exact congrArg _ (ih (count - 10) (by omega) _ _)
    · rw [dif_neg hc, dif_neg hc]
      simp

/-! ## Closed forms for the two size sequences -/

/-- `fillSection` issues full batches of 10 first and the remainder batch
(if any) last. -/
theorem sectionSizes_eq (q : Nat) :
    sectionSizes q
      = List.replicate (q / 10) 10 ++ if q % 10 = 0 then [] else [q % 10] := by
  induction q using Nat.strong_induction_on with
  | _ q ih =>
    rw [sectionSizes.eq_def]
    by_cases hq : 0 < q
    · rw [dif_pos hq]
      simp only [sqsBatchSize]
      by_cases hlt : q < 10
      · rw [if_pos hlt, Nat.sub_self, sectionSizes.eq_def]
        rw [dif_neg (by omega)]
        have e1 : q / 10 = 0 := by omega
        have e2 : q % 10 = q := by omega
        rw [e1, e2, if_neg (by omega)]
        simp
      · rw [if_neg hlt]
        rw [ih (q - 10) (by omega)]
        have e1 : q / 10 = (q - 10) / 10 + 1 := by omega
        have e2 : q % 10 = (q - 10) % 10 := by omega
        rw [e1, e2, List.replicate_succ, List.cons_append]
    · rw [dif_neg hq]
      have : q = 0 := by omega
      subst this
      simp

theorem serialSizes_multiple (k : Nat) :
    serialSizes (10 * k) = List.replicate k 10 := by
  induction k with
  | zero => rw [serialSizes.eq_def]; simp
  | succ k ih =>
    rw [serialSizes.eq_def, dif_pos (by omega)]
    simp only [sqsBatchSize]
    rw [if_neg (by omega)]
    have e : 10 * (k + 1) - 10 = 10 * k := by omega
    rw [e, ih, List.replicate_succ]

/-- `fillSerially` issues the remainder batch (if any) first, then full
batches of 10. -/
theorem serialSizes_eq (q : Nat) :
    serialSizes q
      = (if q % 10 = 0 then [] else [q % 10])
        ++ List.replicate (q / 10) 10 := by
  by_cases hm : q % 10 = 0
  · rw [if_pos hm, List.nil_append]
    have e : 10 * (q / 10) = q := by omega
    calc serialSizes q = serialSizes (10 * (q / 10)) := by rw [e]
      _ = List.replicate (q / 10) 10 := serialSizes_multiple _
  · rw [if_neg hm]
    rw [serialSizes.eq_def, dif_pos (by omega)]
    simp only [sqsBatchSize]
    rw [if_pos hm]
    have e : q - q % 10 = 10 * (q / 10) := by omega
    rw [e, serialSizes_multiple]
    simp

/-! ## Arithmetic consequences -/

theorem sectionSizes_sum (q : Nat) : (sectionSizes q).sum = q := by
  rw [sectionSizes_eq, List.sum_append, List.sum_replicate, smul_eq_mul]
  by_cases hm : q % 10 = 0
  · rw [if_pos hm]; simp; omega
  · rw [if_neg hm]; simp; omega

theorem sectionSizes_length (q : Nat) :
    (sectionSizes q).length = (q + 9) / 10 := by
  rw [sectionSizes_eq, List.length_append, List.length_replicate]
  by_cases hm : q % 10 = 0
  · rw [if_pos hm]; simp; omega
  · rw [if_neg hm]; simp; omega

theorem sectionSizes_le (q : Nat) : ∀ s ∈ sectionSizes q, s ≤ 10 := by
  rw [sectionSizes_eq]
  intro s hs
  rcases List.mem_append.1 hs with h | h
  · rw [List.eq_of_mem_replicate h]
  · by_cases hm : q % 10 = 0
    · rw [if_pos hm] at h; simp at h
    · rw [if_neg hm] at h
      simp at h
      omega

theorem serialSizes_sum (q : Nat) : (serialSizes q).sum = q := by
  rw [serialSizes_eq, List.sum_append, List.sum_replicate, smul_eq_mul]
  by_cases hm : q % 10 = 0
  · rw [if_pos hm]; simp; omega
  · rw [if_neg hm]; simp; omega

theorem serialSizes_mem (q : Nat) : ∀ s ∈ serialSizes q, 1 ≤ s ∧ s ≤ 10 := by
  rw [serialSizes_eq]
  intro s hs
  rcases List.mem_append.1 hs with h | h
  · by_cases hm : q % 10 = 0
    · rw [if_pos hm] at h; simp at h
    · rw [if_neg hm] at h
      simp at h
      omega
  · rw [List.eq_of_mem_replicate h]
    omega

end Sqsfill

namespace Sqsfill

/-! ## Delivered counts and send flags -/

theorem deliveredCount_eq_sum (trace : List (List Message × Bool))
    (h : ∀ b ∈ trace, b.2 = true) :
    deliveredCount trace = (batchSizes trace).sum := by
  unfold deliveredCount batchSizes
  rw [List.filter_eq_self.2 h]

/-- With a send oracle that always succeeds, every flag recorded in the
`fillSection` trace is `true`. -/
theorem fillSectionGo_flags (tmpl : String) (env : Nat → Nat × Nat)
    (sendOk : Nat → Bool) (hok : ∀ n, sendOk n = true)
    (msgCount sent genIdx call : Nat) :
    ∀ b ∈ fillSectionGo tmpl env sendOk msgCount sent genIdx call,
      b.2 = true := by
  suffices h : ∀ rem sent genIdx call, msgCount - sent = rem →
      ∀ b ∈ fillSectionGo tmpl env sendOk msgCount sent genIdx call,
        b.2 = true by
    exact h (msgCount - sent) sent genIdx call rfl
  intro rem
  induction rem using Nat.strong_induction_on with
  | _ rem ih =>
    intro sent genIdx call hrem b hb
    rw [fillSectionGo.eq_def] at hb
    by_cases hs : sent < msgCount
    · rw [dif_pos hs] at hb
      simp only [sqsBatchSize, genMessageBatch_length, List.mem_cons] at hb
      rcases hb with hb | hb
      · rw [hb]
        exact hok call
      · by_cases hlt : msgCount - sent < 10
        · rw [if_pos hlt] at hb
          exact ih (msgCount - (sent + (msgCount - sent))) (by omega)
            (sent + (msgCount - sent)) _ _ rfl b hb
        · rw [if_neg hlt] at hb
          exact ih (msgCount - (sent + 10)) (by omega) (sent + 10) _ _ rfl b hb
    · rw [dif_neg hs] at hb
      simp at hb

/-! ## Aggregation -/

theorem foldl_add_count (reports : List Chunk) (a : Nat) :
    reports.foldl (fun total chunk => total + chunk.count) a
      = a + (reports.map Chunk.count).sum := by
  induction reports generalizing a with
  | nil => simp
  | cons c l ih =>
    simp only [List.foldl_cons, List.map_cons, List.sum_cons, ih]
    omega

theorem aggregate_eq_sum (reports : List Chunk) :
    aggregate reports = (reports.map Chunk.count).sum := by
  unfold aggregate
  rw [foldl_add_count]
  omega

/-- The running totals printed by the aggregation loop form a
non-decreasing chain, whatever the reports are. -/
theorem runningTotals_chain (reports : List Chunk) :
    List.Chain' (· ≤ ·) (runningTotals reports) := by
  unfold runningTotals
  suffices h : ∀ (l : List Chunk) (a : Nat),
      List.Chain' (· ≤ ·)
        (List.scanl (fun total chunk => total + chunk.count) a l) by
    exact h reports 0
  intro l
  induction l with
  | nil =>
    intro a
    simp [List.scanl]
  | cons c l ih =>
    intro a
    rw [List.scanl_cons, List.singleton_append]
    refine List.chain'_cons'.2 ⟨?_, ih _⟩
    intro y hy
    have hhead : (List.scanl (fun total chunk => total + chunk.count)
        (a + c.count) l).head? = some (a + c.count) := by
      cases l <;> simp [List.scanl]
    rw [hhead] at hy
    simp at hy
    omega

/-! ## The partition plan -/

theorem numWorkers_pos (count intv : Nat) (hc : 0 < count) (hi : 0 < intv) :
    0 < numWorkers count intv := by
  unfold numWorkers
  have h := (Nat.le_div_iff_mul_le hi).2
    (show 1 * intv ≤ count + intv - 1 by omega)
  omega

theorem pred_mul_add (n intv : Nat) (h : 0 < n) :
    (n - 1) * intv + intv = n * intv := by
  have h4 : n - 1 + 1 = n := Nat.succ_pred_eq_of_pos h
  calc (n - 1) * intv + intv = (n - 1 + 1) * intv := (Nat.succ_mul _ _).symm
    _ = n * intv := by rw [h4]

/-- The ceiling worker count brackets `count`:
`(workers - 1) * intv < count ≤ workers * intv`. -/
theorem numWorkers_bounds (count intv : Nat) (hc : 0 < count)
    (hi : 0 < intv) :
    (numWorkers count intv - 1) * intv < count ∧
      count ≤ numWorkers count intv * intv := by
  have h1 : numWorkers count intv * intv ≤ count + intv - 1 := by
    unfold numWorkers
    exact Nat.div_mul_le_self _ _
  have h2 : count + intv - 1 < (numWorkers count intv + 1) * intv := by
    have hlt : (count + intv - 1) / intv < numWorkers count intv + 1 := by
      unfold numWorkers
      omega
    exact (Nat.div_lt_iff_lt_mul hi).1 hlt
  have h3 : 0 < numWorkers count intv := numWorkers_pos count intv hc hi
  have hsm : (numWorkers count intv - 1) * intv + intv
      = numWorkers count intv * intv := pred_mul_add _ intv h3
  have hsm2 : (numWorkers count intv + 1) * intv
      = numWorkers count intv * intv + intv := Nat.succ_mul _ _
  omega

theorem workerQuota_of_lt (count intv i : Nat)
    (h : (i + 1) * intv ≤ count) : workerQuota count intv i = intv := by
  unfold workerQuota
  have hsm : (i + 1) * intv = i * intv + intv := Nat.succ_mul i intv
  rw [if_neg (by omega)]

theorem workerQuota_last (count intv : Nat) (hc : 0 < count)
    (hi : 0 < intv) :
    workerQuota count intv (numWorkers count intv - 1)
      = count - (numWorkers count intv - 1) * intv := by
  unfold workerQuota
  have hb := numWorkers_bounds count intv hc hi
  have h3 : 0 < numWorkers count intv := numWorkers_pos count intv hc hi
  have hsm : (numWorkers count intv - 1) * intv + intv
      = numWorkers count intv * intv := pred_mul_add _ intv h3
  split
  · rfl
  · omega

/-- The partition plan is `workers - 1` full quotas of `intv` followed by
the remainder quota. -/
theorem workerQuotas_eq (count intv : Nat) (hc : 0 < count)
    (hi : 0 < intv) :
    workerQuotas count intv
      = List.replicate (numWorkers count intv - 1) intv
        ++ [count - (numWorkers count intv - 1) * intv] := by
  unfold workerQuotas
  have h3 : 0 < numWorkers count intv := numWorkers_pos count intv hc hi
  obtain ⟨m, hm⟩ : ∃ m, numWorkers count intv = m + 1 :=
    ⟨numWorkers count intv - 1, by omega⟩
  rw [hm, List.range_succ, List.map_append, List.map_singleton]
  have hmm : m + 1 - 1 = m := rfl
  rw [hmm]
  congr 1
  · have hconst : ∀ i ∈ List.range m, workerQuota count intv i = intv := by
      intro i hi2
      rw [List.mem_range] at hi2
      apply workerQuota_of_lt
      have hb1 := (numWorkers_bounds count intv hc hi).1
      rw [hm, hmm] at hb1
      calc (i + 1) * intv ≤ m * intv := Nat.mul_le_mul_right _ (by omega)
        _ ≤ count := Nat.le_of_lt hb1
    rw [List.map_congr_left hconst]
    simp
  · have hlast := workerQuota_last count intv hc hi
    rw [hm, hmm] at hlast
    rw [hlast]

/-- The quotas of the partition plan sum exactly to `count`. -/
theorem workerQuotas_sum (count intv : Nat) (hc : 0 < count)
    (hi : 0 < intv) : (workerQuotas count intv).sum = count := by
  rw [workerQuotas_eq count intv hc hi, List.sum_append, List.sum_replicate,
    smul_eq_mul]
  have h1 := (numWorkers_bounds count intv hc hi).1
  simp only [List.sum_cons, List.sum_nil]
  omega

theorem workerQuotas_length (count intv : Nat) :
    (workerQuotas count intv).length = numWorkers count intv := by
  simp [workerQuotas]

/-- At the fixed `interval = 1000` the quota sum equals `count` for every
`count`, the empty plan included. -/
theorem workerQuotas_interval_sum (count : Nat) :
    (workerQuotas count interval).sum = count := by
  by_cases hc : 0 < count
  · exact workerQuotas_sum count interval hc (by decide)
  · have h0 : count = 0 := by omega
    subst h0
    decide

end Sqsfill

namespace Sqsfill

/-! ## End-to-end counting lemmas -/

theorem sectionSizes_mem (q : Nat) : ∀ s ∈ sectionSizes q, 1 ≤ s ∧ s ≤ 10 := by
  rw [sectionSizes_eq]
  intro s hs
  rcases List.mem_append.1 hs with h | h
  · rw [List.eq_of_mem_replicate h]
    omega
  · by_cases hm : q % 10 = 0
    · rw [if_pos hm] at h; simp at h
    · rw [if_neg hm] at h
      simp at h
      omega

/-- The completion report of a worker always carries `sent_count` equal to
the full quota, whatever the send oracle did. -/
theorem fillSection_count (tmpl : String) (env : Nat → Nat × Nat)
    (sendOk : Nat → Bool) (id msgCount : Nat) :
    (fillSection tmpl env sendOk id msgCount).count = msgCount := by
  show ((fillSectionGo tmpl env sendOk msgCount 0 0 0).map
      fun b => b.1.length).sum = msgCount
  have h := fillSectionGo_batchSizes tmpl env sendOk msgCount 0 0 0
  simp only [batchSizes] at h
  rw [h, Nat.sub_zero, sectionSizes_sum]

/-- The serial loop always drains the full count, whatever the send oracle
did. -/
theorem fillSerially_eq (tmpl : String) (env : Nat → Nat × Nat)
    (sendOk : Nat → Bool) (count : Nat) :
    fillSerially tmpl env sendOk count = count := by
  show ((fillSeriallyGo tmpl env sendOk count 0 0).map
      fun b => b.1.length).sum = count
  have h := fillSeriallyGo_batchSizes tmpl env sendOk count 0 0
  simp only [batchSizes] at h
  rw [h, serialSizes_sum]

/-- The concurrent run's aggregated total always equals the full count,
whatever the send oracles did. -/
theorem fillConcurrent_eq (tmpl : String) (envs : Nat → Nat → Nat × Nat)
    (sendOks : Nat → Nat → Bool) (count : Nat) :
    fillConcurrent tmpl envs sendOks count = count := by
  show aggregate ((List.range (numWorkers count interval)).map fun i =>
      fillSection tmpl (envs i) (sendOks i) (i + 1)
        (workerQuota count interval i)) = count
  rw [aggregate_eq_sum, List.map_map]
  have hmap : ∀ i ∈ List.range (numWorkers count interval),
      (Chunk.count ∘ fun i => fillSection tmpl (envs i) (sendOks i) (i + 1)
        (workerQuota count interval i)) i = workerQuota count interval i := by
    intro i _
    exact fillSection_count _ _ _ _ _
  rw [List.map_congr_left hmap]
  exact workerQuotas_interval_sum count

/-- With a send oracle of constant answer `v`, every flag recorded in the
`fillSection` trace is `v`. -/
theorem fillSectionGo_flags_eq (tmpl : String) (env : Nat → Nat × Nat)
    (sendOk : Nat → Bool) (v : Bool) (hv : ∀ n, sendOk n = v)
    (msgCount sent genIdx call : Nat) :
    ∀ b ∈ fillSectionGo tmpl env sendOk msgCount sent genIdx call,
      b.2 = v := by
  suffices h : ∀ rem sent genIdx call, msgCount - sent = rem →
      ∀ b ∈ fillSectionGo tmpl env sendOk msgCount sent genIdx call,
        b.2 = v by
    exact h (msgCount - sent) sent genIdx call rfl
  intro rem
  induction rem using Nat.strong_induction_on with
  | _ rem ih =>
    intro sent genIdx call hrem b hb
    rw [fillSectionGo.eq_def] at hb
    by_cases hs : sent < msgCount
    · rw [dif_pos hs] at hb
      simp only [sqsBatchSize, genMessageBatch_length, List.mem_cons] at hb
      rcases hb with hb | hb
      · rw [hb]
        exact hv call
      · by_cases hlt : msgCount - sent < 10
        · rw [if_pos hlt] at hb
          exact ih (msgCount - (sent + (msgCount - sent))) (by omega)
            (sent + (msgCount - sent)) _ _ rfl b hb
        · rw [if_neg hlt] at hb
          exact ih (msgCount - (sent + 10)) (by omega) (sent + 10) _ _ rfl b hb
    · rw [dif_neg hs] at hb
      simp at hb

theorem deliveredCount_eq_zero (trace : List (List Message × Bool))
    (h : ∀ b ∈ trace, b.2 = false) : deliveredCount trace = 0 := by
  unfold deliveredCount
  have hf : trace.filter (fun b => b.2) = [] := by
    rw [List.filter_eq_nil_iff]
    intro b hb
    rw [h b hb]
    simp
  rw [hf]
  simp

/-- With send oracles that always succeed, the delivered count of a
concurrent run equals the full count. -/
theorem fillConcurrentDelivered_eq (tmpl : String)
    (envs : Nat → Nat → Nat × Nat) (sendOks : Nat → Nat → Bool)
    (count : Nat) (hok : ∀ i n, sendOks i n = true) :
    fillConcurrentDelivered tmpl envs sendOks count = count := by
  unfold fillConcurrentDelivered
  have hterm : ∀ i ∈ List.range (numWorkers count interval),
      deliveredCount (fillSectionGo tmpl (envs i) (sendOks i)
          (workerQuota count interval i) 0 0 0)
        = workerQuota count interval i := by
    intro i _
    rw [deliveredCount_eq_sum _
      (fillSectionGo_flags_eq tmpl (envs i) (sendOks i) true (hok i) _ 0 0 0)]
    rw [fillSectionGo_batchSizes, Nat.sub_zero, sectionSizes_sum]
  rw [List.map_congr_left hterm]
  exact workerQuotas_interval_sum count

/-- With send oracles that always fail, nothing at all is delivered. -/
theorem fillConcurrentDelivered_zero (tmpl : String)
    (envs : Nat → Nat → Nat × Nat) (sendOks : Nat → Nat → Bool)
    (count : Nat) (hbad : ∀ i n, sendOks i n = false) :
    fillConcurrentDelivered tmpl envs sendOks count = 0 := by
  unfold fillConcurrentDelivered
  have hterm : ∀ i ∈ List.range (numWorkers count interval),
      deliveredCount (fillSectionGo tmpl (envs i) (sendOks i)
          (workerQuota count interval i) 0 0 0)
        = (fun _ => 0) i := by
    intro i _
    exact deliveredCount_eq_zero _
      (fillSectionGo_flags_eq tmpl (envs i) (sendOks i) false (hbad i) _ 0 0 0)
  rw [List.map_congr_left hterm]
  simp

end Sqsfill

namespace Sqsfill

/-! ## Claim theorems -/

/-- C1 counterexample: with a Sender that fails on every call and a quota
of 15, the Worker issues a batch of 10 and then a batch of 5 — the second
batch is smaller, not a same-sized reissue, and the loop terminates after
2 iterations instead of running forever. -/
theorem C1_counterexample :
    batchSizes (fillSectionGo "" (fun _ => (0, 0)) (fun _ => false) 15 0 0 0)
      = [10, 5] ∧
    (fillSectionGo "" (fun _ => (0, 0)) (fun _ => false) 15 0 0 0).length
      = 2 := by
  have h : batchSizes
      (fillSectionGo "" (fun _ => (0, 0)) (fun _ => false) 15 0 0 0)
        = [10, 5] := by
    rw [fillSectionGo_batchSizes, Nat.sub_zero, sectionSizes_eq]
    decide
  refine ⟨h, ?_⟩
  have h2 := congrArg List.length h
  simpa [batchSizes] using h2

/-- C1 amended: when `Sender.send` returns an error the Worker still
advances — `sent` is incremented by the batch length, so the remaining
count shrinks; the issued batch sizes do not depend on the send results at
all, and even a Sender that fails on every call leaves a terminating loop
of exactly `⌈q / 10⌉` iterations. -/
theorem C1_error_still_advances (tmpl : String) (env : Nat → Nat × Nat)
    (sendOk sendOk2 : Nat → Bool) (q : Nat) :
    batchSizes (fillSectionGo tmpl env sendOk q 0 0 0)
      = batchSizes (fillSectionGo tmpl env sendOk2 q 0 0 0) ∧
    (fillSectionGo tmpl env (fun _ => false) q 0 0 0).length
      = (q + 9) / 10 := by
  constructor
  · rw [fillSectionGo_batchSizes, fillSectionGo_batchSizes]
  · have h : (batchSizes
        (fillSectionGo tmpl env (fun _ => false) q 0 0 0)).length
          = (q + 9) / 10 := by
      rw [fillSectionGo_batchSizes, Nat.sub_zero, sectionSizes_length]
    simpa [batchSizes] using h

/-- C2: for every `total_count > 0` and `per_worker_interval > 0` the
partitioner creates exactly `⌈total_count / per_worker_interval⌉` workers
(characterised by `(workers - 1) * intv < count ≤ workers * intv`), every
quota except the last equals the interval while the last absorbs the
remainder, the quotas sum to `total_count`, and the
`total_count = 2500, per_worker_interval = 1000` scenario yields quotas
`[1000, 1000, 500]`. -/
theorem C2_partition_plan (count intv : Nat) (hc : 0 < count)
    (hi : 0 < intv) :
    (numWorkers count intv - 1) * intv < count ∧
    count ≤ numWorkers count intv * intv ∧
    workerQuotas count intv
      = List.replicate (numWorkers count intv - 1) intv
        ++ [count - (numWorkers count intv - 1) * intv] ∧
    (workerQuotas count intv).sum = count ∧
    workerQuotas 2500 1000 = [1000, 1000, 500] :=
  ⟨(numWorkers_bounds count intv hc hi).1,
    (numWorkers_bounds count intv hc hi).2,
    workerQuotas_eq count intv hc hi,
    workerQuotas_sum count intv hc hi,
    by decide⟩

/-- Witness for C2 at `total_count = 2500`, `per_worker_interval = 1000`. -/
theorem C2_partition_plan_witness :
    0 < 2500 ∧ 0 < 1000 ∧
    ((numWorkers 2500 1000 - 1) * 1000 < 2500 ∧
      2500 ≤ numWorkers 2500 1000 * 1000 ∧
      workerQuotas 2500 1000
        = List.replicate (numWorkers 2500 1000 - 1) 1000
          ++ [2500 - (numWorkers 2500 1000 - 1) * 1000] ∧
      (workerQuotas 2500 1000).sum = 2500 ∧
      workerQuotas 2500 1000 = [1000, 1000, 500]) :=
  ⟨by decide, by decide, C2_partition_plan 2500 1000 (by decide) (by decide)⟩

/-- C3: for every quota `q > 0` the batch sizes the Worker loop issues
(each computed as `min(sqsBatchSize, remaining)`) sum to exactly `q`, and
no batch exceeds `sqsBatchSize = 10`. -/
theorem C3_worker_batch_sizes (tmpl : String) (env : Nat → Nat × Nat)
    (sendOk : Nat → Bool) (q : Nat) (hq : 0 < q) :
    sqsBatchSize = 10 ∧
    (batchSizes (fillSectionGo tmpl env sendOk q 0 0 0)).sum = q ∧
    ∀ s ∈ batchSizes (fillSectionGo tmpl env sendOk q 0 0 0),
      s ≤ sqsBatchSize := by
  refine ⟨rfl, ?_, ?_⟩
  · rw [fillSectionGo_batchSizes, Nat.sub_zero, sectionSizes_sum]
  · rw [fillSectionGo_batchSizes, Nat.sub_zero]
    exact sectionSizes_le q

/-- Witness for C3 at `q = 25`. -/
theorem C3_worker_batch_sizes_witness :
    0 < 25 ∧
    (sqsBatchSize = 10 ∧
      (batchSizes
        (fillSectionGo "" (fun _ => (0, 0)) (fun _ => true) 25 0 0 0)).sum
          = 25 ∧
      ∀ s ∈ batchSizes
          (fillSectionGo "" (fun _ => (0, 0)) (fun _ => true) 25 0 0 0),
        s ≤ sqsBatchSize) :=
  ⟨by decide,
    C3_worker_batch_sizes "" (fun _ => (0, 0)) (fun _ => true) 25 (by decide)⟩

/-- C4: with a Sender that always succeeds, serial mode and concurrent mode
deliver the same final Run Total for the same `total_count`, and serial
mode sends exactly what a single Worker run on the full count reports. -/
theorem C4_serial_concurrent_agree (tmpl : String) (env : Nat → Nat × Nat)
    (envs : Nat → Nat → Nat × Nat) (sendOk : Nat → Bool)
    (sendOks : Nat → Nat → Bool) (count : Nat)
    (hok : ∀ n, sendOk n = true) (hoks : ∀ i n, sendOks i n = true)
    (hc : 0 < count) :
    fillSerially tmpl env sendOk count
      = fillConcurrent tmpl envs sendOks count ∧
    fillSerially tmpl env sendOk count
      = (fillSection tmpl env sendOk 1 count).count := by
  rw [fillSerially_eq, fillConcurrent_eq, fillSection_count]
  exact ⟨rfl, rfl⟩

/-- Witness for C4 at `total_count = 25` with the constant-success
sender. -/
theorem C4_serial_concurrent_agree_witness :
    (∀ n : Nat, (fun _ : Nat => true) n = true) ∧
    (∀ i n : Nat, (fun _ _ : Nat => true) i n = true) ∧
    0 < 25 ∧
    (fillSerially "" (fun _ => (0, 0)) (fun _ => true) 25
        = fillConcurrent "" (fun _ _ => (0, 0)) (fun _ _ => true) 25 ∧
      fillSerially "" (fun _ => (0, 0)) (fun _ => true) 25
        = (fillSection "" (fun _ => (0, 0)) (fun _ => true) 1 25).count) :=
  ⟨fun _ => rfl, fun _ _ => rfl, by decide,
    C4_serial_concurrent_agree "" (fun _ => (0, 0)) (fun _ _ => (0, 0))
      (fun _ => true) (fun _ _ => true) 25 (fun _ => rfl) (fun _ _ => rfl)
      (by decide)⟩

/-- C5 counterexample: at `total_count = 25` serial mode issues the batch
sizes `[5, 10, 10]` — the remainder batch first — not `[10, 10, 5]`. -/
theorem C5_counterexample :
    batchSizes (fillSeriallyGo "" (fun _ => (0, 0)) (fun _ => true) 25 0 0)
      = [5, 10, 10] ∧
    batchSizes (fillSeriallyGo "" (fun _ => (0, 0)) (fun _ => true) 25 0 0)
      ≠ [10, 10, 5] := by
  have h : batchSizes
      (fillSeriallyGo "" (fun _ => (0, 0)) (fun _ => true) 25 0 0)
        = [5, 10, 10] := by
    rw [fillSeriallyGo_batchSizes, serialSizes_eq]
    decide
  refine ⟨h, ?_⟩
  rw [h]
  decide

/-- C5 amended: at `total_count = 25` the Worker loop (`fillSection`)
issues batch sizes `[10, 10, 5]`, while serial mode (`fillSerially`) —
the reference semantics — issues the same multiset in the order
`[5, 10, 10]`, remainder batch first. -/
theorem C5_batch_size_scenario (tmpl : String) (env : Nat → Nat × Nat)
    (sendOk : Nat → Bool) :
    batchSizes (fillSectionGo tmpl env sendOk 25 0 0 0) = [10, 10, 5] ∧
    batchSizes (fillSeriallyGo tmpl env sendOk 25 0 0) = [5, 10, 10] := by
  constructor
  · rw [fillSectionGo_batchSizes, Nat.sub_zero, sectionSizes_eq]
    decide
  · rw [fillSeriallyGo_batchSizes, serialSizes_eq]
    decide

/-- C6 counterexample: `genMessageBatch` does not clamp the requested size
to `[1, sqsBatchSize]`: requested size 15 yields a batch of exactly 15
records (exceeding 10), and requested size 0 an empty batch. -/
theorem C6_counterexample :
    (genMessageBatch 15 "" (fun _ => (0, 0))).length = 15 ∧
    ¬ (genMessageBatch 15 "" (fun _ => (0, 0))).length ≤ sqsBatchSize ∧
    (genMessageBatch 0 "" (fun _ => (0, 0))).length = 0 := by
  refine ⟨genMessageBatch_length _ _ _, ?_, genMessageBatch_length _ _ _⟩
  rw [genMessageBatch_length]
  decide

/-- C6 amended: `genMessageBatch` returns a batch of exactly the requested
number of freshly generated records, with no clamping and no error path;
the `[1, 10]` range holds for every batch size its callers actually
request (the worker loop and the serial loop). -/
theorem C6_make_batch (n q : Nat) (tmpl : String) (env : Nat → Nat × Nat)
    (sendOk : Nat → Bool) :
    (genMessageBatch n tmpl env).length = n ∧
    (∀ s ∈ batchSizes (fillSectionGo tmpl env sendOk q 0 0 0),
      1 ≤ s ∧ s ≤ sqsBatchSize) ∧
    (∀ s ∈ batchSizes (fillSeriallyGo tmpl env sendOk q 0 0),
      1 ≤ s ∧ s ≤ sqsBatchSize) := by
  refine ⟨genMessageBatch_length n tmpl env, ?_, ?_⟩
  · rw [fillSectionGo_batchSizes, Nat.sub_zero]
    exact sectionSizes_mem q
  · rw [fillSeriallyGo_batchSizes]
    exact serialSizes_mem q

/-- Witness for C6 at `n = 15`, `q = 25`. -/
theorem C6_make_batch_witness :
    (genMessageBatch 15 "" (fun _ => (0, 0))).length = 15 ∧
    (∀ s ∈ batchSizes
        (fillSectionGo "" (fun _ => (0, 0)) (fun _ => true) 25 0 0 0),
      1 ≤ s ∧ s ≤ sqsBatchSize) ∧
    (∀ s ∈ batchSizes
        (fillSeriallyGo "" (fun _ => (0, 0)) (fun _ => true) 25 0 0),
      1 ≤ s ∧ s ≤ sqsBatchSize) :=
  C6_make_batch 15 25 "" (fun _ => (0, 0)) (fun _ => true)

/-- C7 counterexample: with a Sender failing on every call and
`total_count = 5`, the aggregated Run Total is 5 while 0 messages were
actually delivered — the final Run Total is not the count of successfully
delivered messages. -/
theorem C7_counterexample :
    fillConcurrent "" (fun _ _ => (0, 0)) (fun _ _ => false) 5 = 5 ∧
    fillConcurrentDelivered "" (fun _ _ => (0, 0)) (fun _ _ => false) 5
      = 0 ∧
    fillConcurrent "" (fun _ _ => (0, 0)) (fun _ _ => false) 5
      ≠ fillConcurrentDelivered "" (fun _ _ => (0, 0)) (fun _ _ => false)
          5 := by
  have h1 : fillConcurrent "" (fun _ _ => (0, 0)) (fun _ _ => false) 5 = 5 :=
    fillConcurrent_eq _ _ _ _
  have h2 : fillConcurrentDelivered "" (fun _ _ => (0, 0))
      (fun _ _ => false) 5 = 0 :=
    fillConcurrentDelivered_zero _ _ _ _ (fun _ _ => rfl)
  refine ⟨h1, h2, ?_⟩
  rw [h1, h2]
  decide

/-- C7 amended: the Run Total is monotonically non-decreasing across the
sequence of received Completion Reports, and its final value is the sum of
the per-worker `sent` counters — which count every issued batch, failed
sends included, so it equals the full requested count; it equals the count
of actually delivered messages when every send succeeds. -/
theorem C7_run_total (reports : List Chunk) (tmpl : String)
    (envs : Nat → Nat → Nat × Nat) (sendOks : Nat → Nat → Bool)
    (count : Nat) (hok : ∀ i n, sendOks i n = true) :
    List.Chain' (· ≤ ·) (runningTotals reports) ∧
    aggregate reports = (reports.map Chunk.count).sum ∧
    fillConcurrent tmpl envs sendOks count = count ∧
    fillConcurrent tmpl envs sendOks count
      = fillConcurrentDelivered tmpl envs sendOks count := by
  refine ⟨runningTotals_chain reports, aggregate_eq_sum reports,
    fillConcurrent_eq tmpl envs sendOks count, ?_⟩
  rw [fillConcurrent_eq, fillConcurrentDelivered_eq tmpl envs sendOks count hok]

/-- Witness for C7 with two concrete reports and the constant-success
sender at `total_count = 5`. -/
theorem C7_run_total_witness :
    (∀ i n : Nat, (fun _ _ : Nat => true) i n = true) ∧
    (List.Chain' (· ≤ ·) (runningTotals [⟨1, 3⟩, ⟨2, 4⟩]) ∧
      aggregate [⟨1, 3⟩, ⟨2, 4⟩]
        = (([⟨1, 3⟩, ⟨2, 4⟩] : List Chunk).map Chunk.count).sum ∧
      fillConcurrent "" (fun _ _ => (0, 0)) (fun _ _ => true) 5 = 5 ∧
      fillConcurrent "" (fun _ _ => (0, 0)) (fun _ _ => true) 5
        = fillConcurrentDelivered "" (fun _ _ => (0, 0))
            (fun _ _ => true) 5) :=
  ⟨fun _ _ => rfl,
    C7_run_total [⟨1, 3⟩, ⟨2, 4⟩] "" (fun _ _ => (0, 0)) (fun _ _ => true) 5
      (fun _ _ => rfl)⟩

/-- C8: for `total_count = 0` the scheduler creates zero workers and the
aggregated Run Total is 0. -/
theorem C8_zero_count (tmpl : String) (envs : Nat → Nat → Nat × Nat)
    (sendOks : Nat → Nat → Bool) :
    numWorkers 0 interval = 0 ∧ fillConcurrent tmpl envs sendOks 0 = 0 :=
  ⟨by decide, rfl⟩

/-- C9: for every quota `q` and every Sender — one failing on every call
included — the Worker loop terminates after exactly `⌈q / 10⌉` send
attempts and its Completion Report carries `sent_count = q`, because the
`sent` counter is incremented by the batch length unconditionally. -/
theorem C9_worker_always_terminates (tmpl : String) (env : Nat → Nat × Nat)
    (sendOk : Nat → Bool) (id q : Nat) :
    (fillSectionGo tmpl env sendOk q 0 0 0).length = (q + 9) / 10 ∧
    (fillSection tmpl env sendOk id q).count = q := by
  constructor
  · have h : (batchSizes (fillSectionGo tmpl env sendOk q 0 0 0)).length
        = (q + 9) / 10 := by
      rw [fillSectionGo_batchSizes, Nat.sub_zero, sectionSizes_length]
    simpa [batchSizes] using h
  · exact fillSection_count tmpl env sendOk id q

/-- C10: in serial mode, when the initial count is not a multiple of 10 the
first batch issued has size `count % 10` and every subsequent batch has
size exactly 10; after the first iteration the remaining count is a
multiple of 10. -/
theorem C10_serial_remainder_first (tmpl : String) (env : Nat → Nat × Nat)
    (sendOk : Nat → Bool) (count : Nat) (hm : count % 10 ≠ 0) :
    batchSizes (fillSeriallyGo tmpl env sendOk count 0 0)
      = count % 10 :: List.replicate (count / 10) 10 ∧
    (count - count % 10) % 10 = 0 := by
  constructor
  · rw [fillSeriallyGo_batchSizes, serialSizes_eq, if_neg hm]
    simp
  · omega

/-- Witness for C10 at `count = 25`. -/
theorem C10_serial_remainder_first_witness :
    (25 : Nat) % 10 ≠ 0 ∧
    (batchSizes
        (fillSeriallyGo "" (fun _ => (0, 0)) (fun _ => true) 25 0 0)
          = 25 % 10 :: List.replicate (25 / 10) 10 ∧
      ((25 : Nat) - 25 % 10) % 10 = 0) :=
  ⟨by decide,
    C10_serial_remainder_first "" (fun _ => (0, 0)) (fun _ => true) 25
      (by decide)⟩

end Sqsfill
